import Mathlib

/-!
Verification of the window-monitoring and key-capture core of `src/xkey.c`.

The development shallowly embeds the program's functions over an explicit
model of the windowing collaborator:

* a window hierarchy is a finite tree (`WinTree`); each node carries the
  window handle (`wid`), the two optional title properties (`WinAttrs`), and
  the result of the child-enumeration query (`none` models a failed
  `XQueryTree` call, `some []` a window reporting zero children);
* the locale key lookup of `XLookupString` is modelled by the character
  string it stores in the scratch buffer, and the symbolic lookup of
  `XKeysymToString` by an `Option String`;
* each capture-loop iteration is an event (`XEv`) tagged with the timestamp
  string that `getTimeStr` would produce at that iteration, and the log file
  contents are the concatenation of the per-iteration appends.

Every definition mirrors the corresponding C function; termination of the
traversal functions is established by their acceptance as total structural
recursions over the (finite, acyclic) tree.
-/

set_option maxHeartbeats 1000000

namespace XKey

/-- Capacity of the translator's scratch buffer: `#define KEY_BUFF_SIZE 256`. -/
def KEY_BUFF_SIZE : Nat := 256

/-- The two title properties a window may carry: the modern UTF-8
`_NET_WM_NAME` property and the legacy `WM_NAME` property read by
`XFetchName`.  `none` models the absence of the property (a failed
property query). -/
structure WinAttrs where
  netWmName : Option String
  legacyWmName : Option String

/-- A window hierarchy: handle, title properties, and the outcome of the
child-enumeration query.  `children = none` models a failed `XQueryTree`
call on this window; `children = some cs` a successful query returning the
listed children in order. -/
inductive WinTree where
  | node (wid : Nat) (attrs : WinAttrs) (children : Option (List WinTree))

/-- Window handle of the tree node. -/
def WinTree.wid : WinTree → Nat
  | .node i _ _ => i

/-- Title properties of the tree node. -/
def WinTree.attrs : WinTree → WinAttrs
  | .node _ a _ => a

/-- Child-query outcome of the tree node. -/
def WinTree.children : WinTree → Option (List WinTree)
  | .node _ _ q => q

/-- Embedding of `getWindowName` (xkey.c:57-89): try `_NET_WM_NAME` first and
return it when present; otherwise fall back to `XFetchName` (old `WM_NAME`);
otherwise return `NULL` (here `none`). -/
def getWindowName (a : WinAttrs) : Option String :=
  match a.netWmName with
  | some nameUtf8 => some nameUtf8
  | none =>
    match a.legacyWmName with
    | some nameLegacy => some nameLegacy
    | none => none

/-- Embedding of `nameMatchesDesignated` (xkey.c:95-104): a `NULL` or empty
window name never matches, a `NULL` or empty designated string never
matches, and otherwise the match is `strstr(wname, designated) != NULL`,
i.e. case-sensitive substring containment of the designated string in the
window name.  (The `designated` argument of the C function is never `NULL`
at its call sites, so it is embedded as a plain `String`.) -/
def nameMatchesDesignated (wname : Option String) (designated : String) : Bool :=
  match wname with
  | none => false
  | some s =>
    if s = "" then false
    else if designated = "" then false
    else decide (designated.data <:+: s.data)

mutual

/-- Embedding of `find_matched_windows` (xkey.c:118-150): query the children
of `t`; on a failed query or zero children return at once; otherwise, for
each child in order, resolve its name, append its handle to the match list
when the name matches, and then recurse into that child's own subtree. -/
def find_matched_windows (t : WinTree) (designated : String) : List Nat :=
  match t with
  | .node _ _ none => []
  | .node _ _ (some children) => find_matched_in_children children designated

/-- The body of the `for` loop of `find_matched_windows`, processing the
remaining children of one node: the name check and conditional append for
the child happen before the recursive descent into that child. -/
def find_matched_in_children (children : List WinTree) (designated : String) : List Nat :=
  match children with
  | [] => []
  | c :: rest =>
    (match getWindowName c.attrs with
     | some wname =>
       if nameMatchesDesignated (some wname) designated then [c.wid] else []
     | none => []) ++
      find_matched_windows c designated ++ find_matched_in_children rest designated

end

mutual

/-- Embedding of the local helper `recursive_select` in the fallback branch
of `snoop_windows` (xkey.c:195-207): the list of windows, in call order, on
which `XSelectInput` is invoked below `w`.  A failed child query or zero
children stops the recursion. -/
def recursive_select (w : WinTree) : List Nat :=
  match w with
  | .node _ _ none => []
  | .node _ _ (some ch) => recursive_select_children ch

/-- Loop body of `recursive_select`: select each child, then recurse into
its subtree. -/
def recursive_select_children (ch : List WinTree) : List Nat :=
  match ch with
  | [] => []
  | c :: rest => c.wid :: (recursive_select c ++ recursive_select_children rest)

end

/-- Outer loop of the fallback branch of `snoop_windows` (xkey.c:184-211):
query the root's children; select input on each child, then run
`recursive_select` on that child's subtree. -/
def snoop_fallback_loop : List WinTree → List Nat
  | [] => []
  | c :: rest => (c.wid :: recursive_select c) ++ snoop_fallback_loop rest

/-- The full fallback branch of `snoop_windows`: on a failed root query or a
root with zero children nothing is selected; otherwise every child of the
root and, recursively, every deeper descendant is selected. -/
def snoop_fallback (root : WinTree) : List Nat :=
  match root with
  | .node _ _ none => []
  | .node _ _ (some children) => snoop_fallback_loop children

/-- Embedding of `snoop_windows` (xkey.c:158-213): run the walker once; if
the match list is non-empty, select `KeyPressMask | FocusChangeMask` on
exactly the matched windows and report `foundAnyMatches = 1`; otherwise
select on every window of the hierarchy and report `0`.  The first
component is the list of windows passed to `XSelectInput`, in call order;
the second is the `foundAnyMatches` flag. -/
def snoop_windows (root : WinTree) (designated : String) : List Nat × Bool :=
  let matched := find_matched_windows root designated
  if matched.length > 0 then (matched, true) else (snoop_fallback root, false)

/-- The monitoring set: the windows on which key-press and focus-change
interest is registered by `snoop_windows`. -/
def monitoringSet (root : WinTree) (designated : String) : List Nat :=
  (snoop_windows root designated).1

mutual

/-- The sequence of windows examined by the traversal, in visit order: for a
node, its children from left to right, each child immediately followed by
the visit sequence of its own subtree (children below a failed child query
are never reached).  The node passed at the top (the root window) is itself
never examined by `find_matched_windows`. -/
def visitedNodes (t : WinTree) : List WinTree :=
  match t with
  | .node _ _ none => []
  | .node _ _ (some children) => visitedForest children

/-- Visit sequence of a list of sibling subtrees. -/
def visitedForest (children : List WinTree) : List WinTree :=
  match children with
  | [] => []
  | c :: rest => c :: (visitedNodes c ++ visitedForest rest)

end

/-- The window hierarchy below `root`: the handles of every descendant of
the root, in traversal order. -/
def allWindows (root : WinTree) : List Nat :=
  (visitedNodes root).map WinTree.wid

mutual

/-- Every handle stored in the tree, the node's own handle included.
`Nodup (allHandles t)` expresses that the hierarchy is acyclic with
pairwise-distinct window handles, as the windowing system guarantees. -/
def allHandles (t : WinTree) : List Nat :=
  match t with
  | .node i _ none => [i]
  | .node i _ (some children) => i :: allHandlesForest children

/-- Handles stored in a list of sibling subtrees. -/
def allHandlesForest (children : List WinTree) : List Nat :=
  match children with
  | [] => []
  | c :: rest => allHandles c ++ allHandlesForest rest

end

/-- Truncation performed by `snprintf(buf, cap, ...)`: at most `cap - 1`
characters are stored (the remaining byte holds the terminating `NUL`). -/
def snprintfTrunc (cap : Nat) (formatted : String) : String :=
  ⟨formatted.data.take (cap - 1)⟩

/-- Embedding of `TranslateKeyCode` (xkey.c:221-239).  `s` is the character
string the `XLookupString` locale lookup stored in `key_buff` (so
`s.length` is the returned `count`), and `symName` is the result of
`XKeysymToString` on the event's keysym (`none` for a `NULL` return).  When
`count == 0` the translator falls back to the symbolic name wrapped in
angle brackets via `snprintf`, or to the fixed `"<UnknownKey>"` placeholder;
otherwise it returns the looked-up characters unchanged. -/
def TranslateKeyCode (s : String) (symName : Option String) : String :=
  if s.length = 0 then
    match symName with
    | some tmp => snprintfTrunc KEY_BUFF_SIZE ("<" ++ tmp ++ ">")
    | none => snprintfTrunc KEY_BUFF_SIZE "<UnknownKey>"
  else s

/-- Model of the `count` returned by
`XLookupString(xk, key_buff, KEY_BUFF_SIZE, &ks, NULL)` (xkey.c:225): the
lookup stores at most the passed buffer capacity, so for a raw translation
`raw` the returned count is `min raw.length KEY_BUFF_SIZE`.  The program
then writes the terminating NUL at `key_buff[count]`, which is in bounds
only when `count < KEY_BUFF_SIZE`. -/
def xLookupStringCount (raw : List Char) : Nat :=
  min raw.length KEY_BUFF_SIZE

/-- The events the capture loop reacts to.  A `keyPress` carries the model
of its locale lookup and symbolic-name lookup (see `TranslateKeyCode`); a
`focusIn` carries the focused window's handle and the outcome of resolving
its name at event time; `otherEvent` stands for every other event type,
which the loop ignores. -/
inductive XEv where
  | keyPress (lookup : String) (symName : Option String)
  | focusIn (win : Nat) (name : Option String)
  | otherEvent

/-- Text appended to `keylog.txt` by one iteration of the capture loop
(xkey.c:279-329), given the timestamp string of that iteration.  A focus-in
event on a window with a resolvable, non-empty name appends
`"\n[<time>] FocusIn: <name>\n"` (no window handle); a focus-in event on a
window with no resolvable or an empty name appends nothing; a key press
appends exactly the translated fragment (the translator never returns
`NULL`, so the `if (ks)` guard always passes); other events append
nothing. -/
def processEvent : String × XEv → String
  | (tstr, XEv.focusIn _ wname) =>
    match wname with
    | some n => if n = "" then "" else "\n[" ++ tstr ++ "] FocusIn: " ++ n ++ "\n"
    | none => ""
  | (_, XEv.keyPress s symName) => TranslateKeyCode s symName
  | (_, XEv.otherEvent) => ""

/-- Rendering of `%lx` for the window handle in the console `printf`. -/
def hexOfNat (n : Nat) : String :=
  ⟨Nat.toDigits 16 n⟩

/-- Text printed to the console by one iteration of the capture loop: the
console focus line additionally carries the window handle
(`"FocusIn: 0x%lx => %s"`), unlike the log line. -/
def consoleEvent : String × XEv → String
  | (tstr, XEv.focusIn w wname) =>
    match wname with
    | some n =>
      if n = "" then ""
      else "\n[" ++ tstr ++ "] FocusIn: 0x" ++ hexOfNat w ++ " => " ++ n ++ "\n"
    | none => ""
  | (_, XEv.keyPress s symName) => TranslateKeyCode s symName
  | (_, XEv.otherEvent) => ""

/-- Concatenation of the per-iteration log appends for a finite run of the
capture loop. -/
def logChunks : List (String × XEv) → String
  | [] => ""
  | e :: rest => processEvent e ++ logChunks rest

/-- Contents of `keylog.txt` after the loop has handled the given events:
the startup banner written at xkey.c:275, followed by every per-iteration
append in order. -/
def captureLog (evs : List (String × XEv)) : String :=
  "Keylogger started\n" ++ logChunks evs

/-- A sample hierarchy used by the witnesses: a root with a named child, a
second child named via the legacy property only, and a nameless grandchild
under a deeper node. -/
def sampleTree : WinTree :=
  .node 0 ⟨none, none⟩ (some
    [.node 1 ⟨some "firefox", none⟩ none,
     .node 2 ⟨none, some "terminal"⟩ (some
       [.node 3 ⟨none, none⟩ none])])

/-! ## Helper lemmas -/

/-- A string of length zero is the empty string. -/
theorem string_eq_empty_of_length (s : String) (h : s.length = 0) : s = "" := by
  cases s with
  | mk l =>
    cases l with
    | nil => rfl
    | cons a l => simp [String.length] at h

@[simp]
theorem str_nil_append (s : String) : "" ++ s = s := by
  cases s
  rfl

@[simp]
theorem str_append_nil (s : String) : s ++ "" = s := by
  cases s with
  | mk l =>
    show String.mk (l ++ []) = String.mk l
    rw [List.append_nil]

theorem str_append_assoc (a b c : String) : a ++ b ++ c = a ++ (b ++ c) := by
  cases a with
  | mk la =>
    cases b with
    | mk lb =>
      cases c with
      | mk lc =>
        show String.mk (la ++ lb ++ lc) = String.mk (la ++ (lb ++ lc))
        rw [List.append_assoc]

/-- The conditional append performed for one visited child equals a plain
`if` on the composed match predicate (a `NULL` name never matches). -/
theorem matchChunk (c : WinTree) (d : String) :
    (match getWindowName c.attrs with
     | some wname =>
       if nameMatchesDesignated (some wname) d then [c.wid] else []
     | none => ([] : List Nat)) =
      if nameMatchesDesignated (getWindowName c.attrs) d then [c.wid] else [] := by
  cases h : getWindowName c.attrs <;> simp [nameMatchesDesignated]

mutual

/-- The walker returns exactly the handles of the visited windows whose
resolved name matches, in visit order. -/
theorem find_matched_eq_filter (t : WinTree) (d : String) :
    find_matched_windows t d =
      ((visitedNodes t).filter
        fun c => nameMatchesDesignated (getWindowName c.attrs) d).map WinTree.wid := by
  cases t with
  | node i a q =>
    cases q with
    | none => rfl
    | some children =>
      simpa [find_matched_windows, visitedNodes] using find_matched_forest_eq_filter children d

/-- Forest version of `find_matched_eq_filter`. -/
theorem find_matched_forest_eq_filter (children : List WinTree) (d : String) :
    find_matched_in_children children d =
      ((visitedForest children).filter
        fun c => nameMatchesDesignated (getWindowName c.attrs) d).map WinTree.wid := by
  cases children with
  | nil => rfl
  | cons c rest =>
    rw [find_matched_in_children, visitedForest]
    rw [matchChunk c d]
    rw [List.filter_cons, List.filter_append]
    rw [find_matched_eq_filter c d, find_matched_forest_eq_filter rest d]
    by_cases h : nameMatchesDesignated (getWindowName c.attrs) d <;> simp [h]

end

mutual

/-- The fallback selection below `w` selects exactly the visited windows, in
visit order. -/
theorem recursive_select_eq (w : WinTree) :
    recursive_select w = (visitedNodes w).map WinTree.wid := by
  cases w with
  | node i a q =>
    cases q with
    | none => rfl
    | some ch =>
      simpa [recursive_select, visitedNodes] using recursive_select_children_eq ch

/-- Forest version of `recursive_select_eq`. -/
theorem recursive_select_children_eq (ch : List WinTree) :
    recursive_select_children ch = (visitedForest ch).map WinTree.wid := by
  cases ch with
  | nil => rfl
  | cons c rest =>
    rw [recursive_select_children, visitedForest]
    rw [recursive_select_eq c, recursive_select_children_eq rest]
    simp

end

/-- The whole fallback branch selects exactly the hierarchy below the root,
in traversal order. -/
theorem snoop_fallback_eq (root : WinTree) : snoop_fallback root = allWindows root := by
  cases root with
  | node i a q =>
    cases q with
    | none => rfl
    | some children =>
      show snoop_fallback_loop children = allWindows (WinTree.node i a (some children))
      unfold allWindows
      rw [visitedNodes]
      induction children with
      | nil => rfl
      | cons c rest ih =>
        rw [snoop_fallback_loop, visitedForest, ih]
        rw [recursive_select_eq c]
        simp

mutual

/-- The stored handles are the node's own handle followed by the handles of
its visited descendants. -/
theorem allHandles_eq (t : WinTree) :
    allHandles t = t.wid :: (visitedNodes t).map WinTree.wid := by
  cases t with
  | node i a q =>
    cases q with
    | none => rfl
    | some children =>
      show i :: allHandlesForest children = _
      rw [allHandlesForest_eq children]
      rfl

/-- Forest version of `allHandles_eq`. -/
theorem allHandlesForest_eq (children : List WinTree) :
    allHandlesForest children = (visitedForest children).map WinTree.wid := by
  cases children with
  | nil => rfl
  | cons c rest =>
    rw [allHandlesForest, visitedForest, allHandles_eq c, allHandlesForest_eq rest]
    simp

end

/-- When the walker finds at least one match, `snoop_windows` selects input
on exactly the matched windows. -/
theorem monitoring_of_matched (root : WinTree) (d : String)
    (h : find_matched_windows root d ≠ []) :
    monitoringSet root d = find_matched_windows root d := by
  have hpos : 0 < (find_matched_windows root d).length := List.length_pos.mpr h
  simp [monitoringSet, snoop_windows, hpos]

/-- When the walker finds no match, `snoop_windows` selects input via the
fallback branch. -/
theorem monitoring_of_unmatched (root : WinTree) (d : String)
    (h : find_matched_windows root d = []) :
    monitoringSet root d = snoop_fallback root := by
  simp [monitoringSet, snoop_windows, h]

/-- Appending events to a run appends their chunks to the log. -/
theorem logChunks_append (a b : List (String × XEv)) :
    logChunks (a ++ b) = logChunks a ++ logChunks b := by
  induction a with
  | nil => simp [logChunks]
  | cons e rest ih =>
    rw [List.cons_append, logChunks, logChunks, ih, str_append_assoc]

/-- The log after further events is the previous log with the new chunks
appended: earlier records are never altered. -/
theorem captureLog_append (a b : List (String × XEv)) :
    captureLog (a ++ b) = captureLog a ++ logChunks b := by
  unfold captureLog
  rw [logChunks_append, str_append_assoc]

/-! ## Claim theorems -/

/-- C1: for every window hierarchy and every designator, if at least one
window's resolved name contains the designator (in the spec's sense of the
match predicate, under which the empty designator matches nothing), then
the monitoring set — the windows on which key-press and focus-change
interest is registered — equals, as an order-independent set, exactly the
set of handles of the windows whose resolved name matches, and hence
contains no non-matching window. -/
theorem monitoring_eq_match_set (root : WinTree) (d : String)
    (h : ∃ c ∈ visitedNodes root, nameMatchesDesignated (getWindowName c.attrs) d = true) :
    (monitoringSet root d).toFinset =
      (((visitedNodes root).filter
        fun c => nameMatchesDesignated (getWindowName c.attrs) d).map WinTree.wid).toFinset := by
  have hfil := find_matched_eq_filter root d
  have hne : find_matched_windows root d ≠ [] := by
    rw [hfil]
    obtain ⟨c, hc, hp⟩ := h
    intro hnil
    have := List.filter_eq_nil_iff.mp (List.map_eq_nil_iff.mp hnil) c hc
    simp [hp] at this
  rw [monitoring_of_matched root d hne, hfil]

/-- Witness for C1 on the sample hierarchy with designator "fire". -/
theorem monitoring_eq_match_set_witness :
    (monitoringSet sampleTree "fire").toFinset =
      (((visitedNodes sampleTree).filter
        fun c => nameMatchesDesignated (getWindowName c.attrs) "fire").map WinTree.wid).toFinset :=
  monitoring_eq_match_set sampleTree "fire" (by decide)

/-- C2: for every hierarchy and designator matched by no window (the empty
designator included), the monitoring set equals every window of the
hierarchy — every descendant of the root, in traversal order — and is
therefore empty only when the hierarchy itself is empty. -/
theorem monitoring_fallback_all (root : WinTree) (d : String)
    (h : ∀ c ∈ visitedNodes root, nameMatchesDesignated (getWindowName c.attrs) d = false) :
    monitoringSet root d = allWindows root ∧
      (monitoringSet root d = [] → allWindows root = []) := by
  have hnil : find_matched_windows root d = [] := by
    rw [find_matched_eq_filter root d]
    have hfil : (visitedNodes root).filter
        (fun c => nameMatchesDesignated (getWindowName c.attrs) d) = [] :=
      List.filter_eq_nil_iff.mpr (fun c hc => by simp [h c hc])
    rw [hfil]
    rfl
  have h1 : monitoringSet root d = allWindows root := by
    rw [monitoring_of_unmatched root d hnil, snoop_fallback_eq]
  exact ⟨h1, fun hm => h1.symm.trans hm⟩

/-- Witness for C2 on the sample hierarchy with a designator no window
name contains. -/
theorem monitoring_fallback_all_witness :
    monitoringSet sampleTree "zzz" = allWindows sampleTree :=
  (monitoring_fallback_all sampleTree "zzz" (by decide)).1

/-- C3: the translator always returns a non-empty fragment; when the locale
lookup yields one or more characters the fragment is exactly those
characters with no wrapping; when it yields zero characters and a symbolic
key name exists the fragment is the name wrapped in angle brackets (as long
as the formatted name fits the `snprintf` bound, which every X keysym name
does by a wide margin); with neither mapping the fragment is exactly
`"<UnknownKey>"`. -/
theorem translate_key_fragment (s : String) (symName : Option String) :
    TranslateKeyCode s symName ≠ "" ∧
    (s ≠ "" → TranslateKeyCode s symName = s) ∧
    (∀ tmp, s = "" → symName = some tmp →
      tmp.length + 2 ≤ KEY_BUFF_SIZE - 1 →
      TranslateKeyCode s symName = "<" ++ tmp ++ ">") ∧
    (s = "" → symName = none → TranslateKeyCode s symName = "<UnknownKey>") := by
  refine ⟨?_, ?_, ?_, ?_⟩
  · by_cases hs : s.length = 0
    · cases symName with
      | none =>
        simp only [TranslateKeyCode]
        rw [if_pos hs]
        decide
      | some tmp =>
        simp only [TranslateKeyCode]
        rw [if_pos hs]
        simp only [snprintfTrunc]
        intro hEq
        have hdata : (("<" ++ tmp ++ ">").data).take (KEY_BUFF_SIZE - 1) = [] :=
          congrArg String.data hEq
        have hlen := congrArg List.length hdata
        rw [List.length_take] at hlen
        have hformat : ("<" ++ tmp ++ ">").data.length = tmp.data.length + 2 := by
          show ('<' :: (tmp.data ++ ['>'])).length = tmp.data.length + 2
          simp
        rw [hformat] at hlen
        have hlen2 : min (KEY_BUFF_SIZE - 1) (tmp.data.length + 2) = 0 := hlen
        have h255 : KEY_BUFF_SIZE - 1 = 255 := rfl
        omega
    · simp only [TranslateKeyCode]
      rw [if_neg hs]
      intro hEq
      apply hs
      rw [hEq]
      rfl
  · intro hs
    simp only [TranslateKeyCode]
    rw [if_neg]
    intro h0
    exact hs (string_eq_empty_of_length s h0)
  · intro tmp hs hsym hbound
    subst hs
    subst hsym
    simp only [TranslateKeyCode]
    rw [if_pos (show ("" : String).length = 0 from rfl)]
    simp only [snprintfTrunc]
    have hformat : ("<" ++ tmp ++ ">").data.length = tmp.data.length + 2 := by
      show ('<' :: (tmp.data ++ ['>'])).length = tmp.data.length + 2
      simp
    have hle : ("<" ++ tmp ++ ">").data.length ≤ KEY_BUFF_SIZE - 1 := by
      rw [hformat]
      have hL : tmp.length = tmp.data.length := rfl
      have h255 : KEY_BUFF_SIZE - 1 = 255 := rfl
      omega
    rw [List.take_of_length_le hle]
  · intro hs hsym
    subst hs
    subst hsym
    decide

/-- Witness for C3: a key with no printable mapping and symbolic name
"Return" translates to the wrapped fragment. -/
theorem translate_key_fragment_witness :
    TranslateKeyCode "" (some "Return") = "<" ++ "Return" ++ ">" :=
  (translate_key_fragment "" (some "Return")).2.2.1 "Return" rfl rfl (by decide)

/-- C4: consecutive key-press events append exactly their translated
fragments to the log, with no separator and no timestamp between them; in
particular three events translating to "h", "i", "<Return>" append the
literal text `hi<Return>`, and the previous log contents are preserved as
a prefix. -/
theorem key_fragments_raw_stream (evs : List (String × XEv))
    (t1 t2 t3 : String) (s1 s2 s3 : String) (y1 y2 y3 : Option String)
    (h1 : TranslateKeyCode s1 y1 = "h") (h2 : TranslateKeyCode s2 y2 = "i")
    (h3 : TranslateKeyCode s3 y3 = "<Return>") :
    captureLog (evs ++
        [(t1, XEv.keyPress s1 y1), (t2, XEv.keyPress s2 y2), (t3, XEv.keyPress s3 y3)]) =
      captureLog evs ++ "hi<Return>" ∧
    ∀ t s y, captureLog (evs ++ [(t, XEv.keyPress s y)]) =
      captureLog evs ++ TranslateKeyCode s y := by
  constructor
  · rw [captureLog_append]
    simp only [logChunks, processEvent, h1, h2, h3, str_append_nil]
    rfl
  · intro t s y
    rw [captureLog_append]
    simp [logChunks, processEvent]

/-- Witness for C4: the three-key scenario on an empty prior log. -/
theorem key_fragments_raw_stream_witness :
    captureLog [("T1", XEv.keyPress "h" none), ("T2", XEv.keyPress "i" none),
        ("T3", XEv.keyPress "" (some "Return"))] =
      captureLog [] ++ "hi<Return>" :=
  (key_fragments_raw_stream [] "T1" "T2" "T3" "h" "i" "" none none (some "Return")
    (by decide) (by decide) (by decide)).1

/-- C5: a focus-in event on a window with a resolvable non-empty name
appends to the log exactly the record `[<timestamp>] FocusIn: <name>` (as
one framed line, with no window handle — unlike the console line, which
carries the handle), leaving all previously written fragments unaltered;
a focus-in event on a window with no resolvable name, or an empty name, is
silently dropped and the log is unchanged. -/
theorem focus_event_logging (evs : List (String × XEv)) (tstr : String) (w : Nat)
    (n : String) (h : n ≠ "") :
    captureLog (evs ++ [(tstr, XEv.focusIn w (some n))]) =
      captureLog evs ++ ("\n[" ++ tstr ++ "] FocusIn: " ++ n ++ "\n") ∧
    consoleEvent (tstr, XEv.focusIn w (some n)) =
      "\n[" ++ tstr ++ "] FocusIn: 0x" ++ hexOfNat w ++ " => " ++ n ++ "\n" ∧
    captureLog (evs ++ [(tstr, XEv.focusIn w none)]) = captureLog evs ∧
    captureLog (evs ++ [(tstr, XEv.focusIn w (some ""))]) = captureLog evs := by
  refine ⟨?_, ?_, ?_, ?_⟩
  · rw [captureLog_append]
    simp [logChunks, processEvent, h]
  · simp [consoleEvent, h]
  · rw [captureLog_append]
    simp [logChunks, processEvent]
  · rw [captureLog_append]
    simp [logChunks, processEvent]

/-- Witness for C5: a focus-in on a window named "Editor" at time "T". -/
theorem focus_event_logging_witness :
    captureLog [("T", XEv.focusIn 3 (some "Editor"))] =
      captureLog [] ++ ("\n[" ++ "T" ++ "] FocusIn: " ++ "Editor" ++ "\n") :=
  (focus_event_logging [] "T" 3 "Editor" (by decide)).1

/-- C6: window-name resolution is a two-tier lookup: the modern UTF-8 title
property wins whenever present (whatever the legacy property holds), a
window with only the legacy property resolves to the legacy value, and a
window with neither property resolves to no name at all (the C function
returns `NULL`), which the match predicate never accepts. -/
theorem window_name_two_tier (l : Option String) (s t d : String) :
    getWindowName ⟨some s, l⟩ = some s ∧
    getWindowName ⟨none, some t⟩ = some t ∧
    getWindowName ⟨none, none⟩ = none ∧
    nameMatchesDesignated (getWindowName ⟨none, none⟩) d = false :=
  ⟨rfl, rfl, rfl, rfl⟩

/-- C7: the match predicate is case-sensitive substring containment,
accepting only when both the window name and the designator are non-empty;
the empty designator matches nothing, an unresolved (`NULL`) name never
matches, and a window whose name cannot be resolved contributes nothing to
the match list while its subtree and siblings are still traversed. -/
theorem name_match_predicate (wname : Option String) (s d : String) :
    (nameMatchesDesignated (some s) d = true ↔
      s ≠ "" ∧ d ≠ "" ∧ d.data <:+: s.data) ∧
    nameMatchesDesignated wname "" = false ∧
    nameMatchesDesignated none d = false ∧
    nameMatchesDesignated (some "ABC") "abc" = false ∧
    ∀ i a q rest d2, getWindowName a = none →
      find_matched_in_children (WinTree.node i a q :: rest) d2 =
        find_matched_windows (WinTree.node i a q) d2 ++ find_matched_in_children rest d2 := by
  refine ⟨?_, ?_, rfl, by decide, ?_⟩
  · by_cases h1 : s = ""
    · simp [nameMatchesDesignated, h1]
    · by_cases h2 : d = ""
      · simp [nameMatchesDesignated, h1, h2]
      · simp [nameMatchesDesignated, h1, h2]
  · cases wname with
    | none => rfl
    | some s2 => simp [nameMatchesDesignated]
  · intro i a q rest d2 hn
    rw [find_matched_in_children]
    have ha : WinTree.attrs (WinTree.node i a q) = a := rfl
    rw [ha, hn]
    simp

/-- Witness for C7: a child with no resolvable name is skipped without
aborting the traversal. -/
theorem name_match_predicate_witness :
    find_matched_in_children [WinTree.node 7 ⟨none, none⟩ none] "q" =
      find_matched_windows (WinTree.node 7 ⟨none, none⟩ none) "q" ++
        find_matched_in_children [] "q" :=
  (name_match_predicate (some "a") "a" "q").2.2.2.2 7 ⟨none, none⟩ none [] "q" rfl

/-- C8: the matched handles are produced in pre-order traversal order: the
match list equals the visit sequence filtered by the match predicate, and
at each step the head child is matched before the walker descends into that
child's own subtree and then continues with the remaining children. -/
theorem match_set_preorder (root : WinTree) (d : String) :
    find_matched_windows root d =
      ((visitedNodes root).filter
        fun c => nameMatchesDesignated (getWindowName c.attrs) d).map WinTree.wid ∧
    ∀ c cs, find_matched_in_children (c :: cs) d =
      (if nameMatchesDesignated (getWindowName c.attrs) d then [c.wid] else []) ++
        find_matched_windows c d ++ find_matched_in_children cs d := by
  refine ⟨find_matched_eq_filter root d, fun c cs => ?_⟩
  rw [find_matched_in_children, matchChunk c d]

/-- C9: on every finite acyclic hierarchy with pairwise-distinct handles
the traversal visits no handle twice (termination holds by the totality of
the embedded traversal functions), and recursion on a node stops exactly
when the node reports zero children or the child query fails — a failed
query being treated the same as zero children rather than as an error. -/
theorem traversal_no_revisit (root : WinTree) (d : String)
    (h : (allHandles root).Nodup) :
    ((visitedNodes root).map WinTree.wid).Nodup ∧
      (∀ i a, find_matched_windows (WinTree.node i a none) d = []) ∧
      (∀ i a, find_matched_windows (WinTree.node i a (some [])) d = []) ∧
      ∀ i a, find_matched_windows (WinTree.node i a none) d =
        find_matched_windows (WinTree.node i a (some [])) d := by
  refine ⟨?_, fun i a => rfl, fun i a => rfl, fun i a => rfl⟩
  rw [allHandles_eq root] at h
  exact (List.nodup_cons.mp h).2

/-- Witness for C9 on the sample hierarchy, whose handles are distinct. -/
theorem traversal_no_revisit_witness :
    ((visitedNodes sampleTree).map WinTree.wid).Nodup :=
  (traversal_no_revisit sampleTree "q" (by decide)).1

/-- C10: the implicit in-bounds claim for `key_buff[count] = 0` fails:
`XLookupString` is passed the full capacity `KEY_BUFF_SIZE`, so it may
store and return `count = KEY_BUFF_SIZE` (e.g. for a keysym rebound to a
256-character string), and the NUL write then lands one byte past the end
of the buffer.  At such an input the count is not strictly below the
capacity, refuting the claim; the code should pass `KEY_BUFF_SIZE - 1`. -/
theorem nul_terminator_off_by_one :
    xLookupStringCount (List.replicate KEY_BUFF_SIZE 'a') = KEY_BUFF_SIZE ∧
      KEY_BUFF_SIZE ≤ xLookupStringCount (List.replicate KEY_BUFF_SIZE 'a') := by
  constructor
  · simp [xLookupStringCount]
  · simp [xLookupStringCount]

end XKey
